import Mathlib

/-!
Verification of the interactive crossword engine of `nyt-crossword`.

The definitions below are a shallow embedding of the front-end engine in
`src/src/App.jsx` (first document) and of the storage helpers in
`src/src/utils/scoreStorage.js`.  JavaScript objects become Lean
structures, `null`/missing values become `Option`, strings stay `String`
(statuses are the literal strings "neutral" / "correct" / "wrong", the
direction the literal strings "Across" / "Down"), numbers become `Int`,
and `localStorage` stores become explicit values threaded through the
functions.  `toUpperCase` is modelled as character-wise `Char.toUpper`.
-/

/-- Uppercasing, the model of JavaScript `String.prototype.toUpperCase`. -/
def up (s : String) : String := ⟨s.data.map Char.toUpper⟩

/-- A playable grid cell, as built by the load effect in `App.jsx`:
`answer` is the expected letter (`none` when the source record had no
`answer` field), `label` the clue number, `userInput` the user's letter
and `status` one of the strings "neutral" / "correct" / "wrong". -/
structure Cell where
  answer : Option String
  label : Option Int
  userInput : String
  status : String
  deriving Repr, DecidableEq

/-- A grid is the ordered list of cells; `none` is a blocked (black) cell. -/
abbrev Grid := List (Option Cell)

/-- JavaScript indexing `grid[i]`: out of bounds reads as `undefined`,
which the code treats exactly like a `null` cell, so both collapse to
`none`. -/
def gget (g : Grid) (i : Nat) : Option Cell :=
  match g.get? i with
  | some c => c
  | none => none

/-- Total list indexing with a default, the model of `cells[i]` at
indices the code has already bounds-checked. -/
def nthD (l : List Nat) (i : Nat) (d : Nat) : Nat :=
  match l.get? i with
  | some x => x
  | none => d

/-- Point update of the grid, the model of the
`prev.map((cell, i) => i === k && cell ? f(cell) : cell)` pattern. -/
def jsSetCell : Grid → Nat → (Cell → Cell) → Grid
  | [], _, _ => []
  | c :: rest, 0, f => c.map f :: rest
  | c :: rest, i + 1, f => c :: jsSetCell rest i f

/-- First index of the list satisfying the predicate (model of the
`findIndex` / first-match loops of the source). -/
def jsFindIdx (p : α → Bool) : List α → Option Nat
  | [] => none
  | a :: l => if p a then some 0 else (jsFindIdx p l).map (· + 1)

/-- First element of the list satisfying the predicate (model of the
`for (const idx of cells) ... return idx` loops of the source). -/
def firstWhere (p : α → Bool) : List α → Option α
  | [] => none
  | a :: l => if p a then some a else firstWhere p l

/-- JavaScript `Array.prototype.indexOf`: the index of the element, or -1. -/
def jsIndexOf (l : List Nat) (x : Nat) : Int :=
  match jsFindIdx (fun y => y == x) l with
  | some k => (k : Int)
  | none => -1

/-- One cell's contribution to `isAllCorrect`: a blocked cell passes, a
playable cell passes iff its input matches its answer case-insensitively
(`App.jsx` line 27). -/
def cellOk (c : Option Cell) : Bool :=
  match c with
  | none => true
  | some cell => up cell.userInput == up (cell.answer.getD "")

/-- Completion test `isAllCorrect` (`App.jsx` lines 26-28):
`grid.length > 0 && grid.every(c => !c || up(c.userInput) === up(c.answer))`. -/
def isAllCorrect (g : Grid) : Bool :=
  decide (0 < g.length) && g.all cellOk

/-- The date pattern `/^\d{4}-\d{2}-\d{2}$/` used by `scoreStorage.js`
and `App.jsx`. -/
def matchesDatePattern (s : String) : Bool :=
  match s.data with
  | [a, b, c, d, e, f, g, h, i, j] =>
    a.isDigit && b.isDigit && c.isDigit && d.isDigit && e == '-' &&
    f.isDigit && g.isDigit && h == '-' && i.isDigit && j.isDigit
  | _ => false

/-- A scoreboard entry `{date, seconds}`; `seconds` is `none` when the
stored JSON value is not a number (the `typeof ... !== "number"` check in
`recordScore` guards against that). -/
structure ScoreEntry where
  date : String
  seconds : Option Int
  deriving Repr, DecidableEq

/-- `recordScore` (`scoreStorage.js` lines 22-37).  The stored list is
threaded explicitly; the result is the returned boolean and the list as
saved.  The date argument is `none` when the call site passed no date. -/
def recordScore (date : Option String) (seconds : Int) (list : List ScoreEntry) :
    Bool × List ScoreEntry :=
  match date with
  | none => (false, list)
  | some d =>
    if d = "" then (false, list)
    else if matchesDatePattern d then
      match jsFindIdx (fun x => x.date == d) list with
      | some i =>
        match list.get? i with
        | some e =>
          match e.seconds with
          | some v =>
            if seconds < v then (true, list.set i ⟨d, some seconds⟩)
            else (false, list)
          | none => (true, list.set i ⟨d, some seconds⟩)
        | none => (false, list)
      | none => (true, list ++ [⟨d, some seconds⟩])
    else (false, list)

/-- The per-date puzzle-progress store `nytMiniStates:v1`, keyed by date. -/
abbrev StateStore (α : Type) := String → Option α

/-- `savePuzzleState` (`scoreStorage.js` lines 58-66): writes the record
under the date key; a falsy date is a no-op. -/
def savePuzzleState (date : String) (state : α) (store : StateStore α) : StateStore α :=
  if date = "" then store
  else fun d => if d = date then some state else store d

/-- `clearPuzzleState` (`scoreStorage.js` lines 68-78): deletes the
record under the date key; a falsy date is a no-op. -/
def clearPuzzleState (date : String) (store : StateStore α) : StateStore α :=
  if date = "" then store
  else fun d => if d = date then none else store d

/- ------------------------------------------------------------------ -/
/- Basic helper lemmas. -/

theorem up_eq_empty_iff (s : String) : up s = "" ↔ s = "" := by
  cases s with
  | mk l =>
    cases l with
    | nil => simp [up]
    | cons c cs =>
      constructor
      · intro h
        exact absurd (congrArg String.data h) (by simp [up])
      · intro h
        exact absurd (congrArg String.data h) (by simp)

theorem jsFindIdx_some_get {p : α → Bool} {l : List α} {i : Nat}
    (h : jsFindIdx p l = some i) : ∃ x, l.get? i = some x ∧ p x = true := by
  induction l generalizing i with
  | nil => simp [jsFindIdx] at h
  | cons a t ih =>
    by_cases hp : p a
    · simp [jsFindIdx, hp] at h
      subst h
      exact ⟨a, rfl, hp⟩
    · simp [jsFindIdx, hp] at h
      match hrec : jsFindIdx p t with
      | none => rw [hrec] at h; simp at h
      | some k =>
        rw [hrec] at h
        simp at h
        obtain ⟨x, hx, hpx⟩ := ih hrec
        refine ⟨x, ?_, hpx⟩
        rw [← h, List.get?_cons_succ]
        exact hx

/-- Claim C1 sanity: a small concrete grid evaluates as expected. -/
example : isAllCorrect [some ⟨some "A", none, "a", "neutral"⟩, none] = true := by decide

example : isAllCorrect [] = false := by decide

/-- C1.  For every grid, `isAllCorrect` is true iff the grid is non-empty
and every cell is blocked or has `userInput` matching `answer`
case-insensitively; blocked cells only enter through the per-cell
disjunction, and the `status` field is ignored entirely (replacing every
status by anything leaves the result unchanged). -/
theorem isAllCorrect_spec (g : Grid) :
    (isAllCorrect g = true ↔
      (g ≠ [] ∧ ∀ cell : Cell, some cell ∈ g →
        up cell.userInput = up (cell.answer.getD ""))) ∧
    (∀ f : Cell → String,
      isAllCorrect (g.map (Option.map (fun c => { c with status := f c }))) =
        isAllCorrect g) := by
  constructor
  · simp only [isAllCorrect, Bool.and_eq_true, decide_eq_true_iff, List.all_eq_true]
    constructor
    · rintro ⟨hlen, hall⟩
      refine ⟨by rintro rfl; simp at hlen, ?_⟩
      intro cell hmem
      have := hall _ hmem
      simpa [cellOk] using this
    · rintro ⟨hne, hall⟩
      refine ⟨List.length_pos.mpr hne, ?_⟩
      intro c hc
      cases c with
      | none => simp [cellOk]
      | some cell => simpa [cellOk] using hall cell hc
  · intro f
    simp only [isAllCorrect, List.length_map]
    congr 1
    induction g with
    | nil => rfl
    | cons c t ih =>
      cases c with
      | none =>
        simp only [List.map_cons, List.all_cons, Option.map_none']
        rw [ih]
      | some cell =>
        simp only [List.map_cons, List.all_cons, Option.map_some']
        rw [ih]
        rfl

/-- C9.  `recordScore` with a missing date or a date that does not match
the exact pattern `YYYY-MM-DD` returns false and leaves the stored score
list completely unchanged. -/
theorem recordScore_invalid_date (date : Option String) (seconds : Int)
    (list : List ScoreEntry)
    (hbad : match date with
            | none => True
            | some d => matchesDatePattern d = false) :
    recordScore date seconds list = (false, list) := by
  match date with
  | none => rfl
  | some d =>
    simp only [recordScore]
    by_cases hd : d = ""
    · simp [hd]
    · simp [hd, hbad]

/-- Witness for C9 at concrete invalid inputs. -/
theorem recordScore_invalid_date_witness :
    recordScore none 5 [⟨"2024-01-01", some 90⟩] = (false, [⟨"2024-01-01", some 90⟩]) ∧
    recordScore (some "2024/01/01") 5 [] = (false, []) ∧
    recordScore (some "") 5 [] = (false, []) := by
  refine ⟨?_, ?_, ?_⟩
  · exact recordScore_invalid_date none 5 [⟨"2024-01-01", some 90⟩] trivial
  · exact recordScore_invalid_date (some "2024/01/01") 5 [] (by decide)
  · exact recordScore_invalid_date (some "") 5 [] (by decide)

/-- C3.  For every valid date and stored list, `recordScore` keeps only
the per-date minimum: when the first entry for the date holds a numeric
time, a strictly lower call replaces it and a higher-or-equal call leaves
the list untouched; when no entry for the date exists the new entry is
appended. -/
theorem recordScore_keeps_min (d : String) (seconds : Int) (list : List ScoreEntry)
    (hvalid : matchesDatePattern d = true) :
    (∀ i e v, jsFindIdx (fun x => x.date == d) list = some i →
      list.get? i = some e → e.seconds = some v →
      (seconds < v → (recordScore (some d) seconds list).2 = list.set i ⟨d, some seconds⟩) ∧
      (v ≤ seconds → (recordScore (some d) seconds list).2 = list)) ∧
    (jsFindIdx (fun x => x.date == d) list = none →
      (recordScore (some d) seconds list).2 = list ++ [⟨d, some seconds⟩]) := by
  have hd : d ≠ "" := by
    intro h
    rw [h] at hvalid
    simp [matchesDatePattern] at hvalid
  constructor
  · intro i e v hfind hget hsec
    have hget' : list[i]? = some e := by
      rw [← List.get?_eq_getElem?]
      exact hget
    constructor
    · intro hlt
      simp [recordScore, hd, hvalid, hfind, hget', hsec, hlt]
    · intro hge
      simp [recordScore, hd, hvalid, hfind, hget', hsec, Int.not_lt.mpr hge]
  · intro hfind
    simp [recordScore, hd, hvalid, hfind]

/-- Witness for C3: the spec scenario, recording 90 then 120 keeps 90,
recording 60 afterwards replaces it. -/
theorem recordScore_keeps_min_witness :
    (recordScore (some "2024-01-01") 90 []).2 = [⟨"2024-01-01", some 90⟩] ∧
    (recordScore (some "2024-01-01") 120 [⟨"2024-01-01", some 90⟩]).2 =
      [⟨"2024-01-01", some 90⟩] ∧
    (recordScore (some "2024-01-01") 60 [⟨"2024-01-01", some 90⟩]).2 =
      [⟨"2024-01-01", some 60⟩] := by
  refine ⟨?_, ?_, ?_⟩
  · exact (recordScore_keeps_min "2024-01-01" 90 [] (by decide)).2 (by decide)
  · exact ((recordScore_keeps_min "2024-01-01" 120 [⟨"2024-01-01", some 90⟩]
      (by decide)).1 0 ⟨"2024-01-01", some 90⟩ 90 (by decide) rfl rfl).2 (by decide)
  · have h := ((recordScore_keeps_min "2024-01-01" 60 [⟨"2024-01-01", some 90⟩]
      (by decide)).1 0 ⟨"2024-01-01", some 90⟩ 90 (by decide) rfl rfl).1 (by decide)
    simpa using h

/-- C10.  Per-date progress records are isolated: saving under one date
leaves every other date's record unchanged, and clearing one date removes
exactly that record. -/
theorem puzzleState_per_date_isolated {α : Type} (d1 d2 : String) (st : α)
    (store : StateStore α) (h1 : d1 ≠ "") (h2 : d2 ≠ d1) :
    savePuzzleState d1 st store d2 = store d2 ∧
    clearPuzzleState d1 store d2 = store d2 ∧
    clearPuzzleState d1 store d1 = none := by
  refine ⟨?_, ?_, ?_⟩
  · simp [savePuzzleState, h1, h2]
  · simp [clearPuzzleState, h1, h2]
  · simp [clearPuzzleState, h1]

/-- Witness for C10 at two concrete dates. -/
theorem puzzleState_per_date_isolated_witness :
    (savePuzzleState "2024-01-02" (7 : Int)
      (fun d => if d = "2024-01-01" then some (3 : Int) else none)) "2024-01-01" =
        some (3 : Int) ∧
    (clearPuzzleState "2024-01-02"
      (fun d => if d = "2024-01-01" then some (3 : Int) else none)) "2024-01-01" =
        some (3 : Int) ∧
    (clearPuzzleState "2024-01-02"
      (fun d => if d = "2024-01-02" then some (5 : Int) else none)) "2024-01-02" = none := by
  refine ⟨?_, ?_, ?_⟩
  · have h := (puzzleState_per_date_isolated "2024-01-02" "2024-01-01" (7 : Int)
      (fun d => if d = "2024-01-01" then some (3 : Int) else none) (by decide) (by decide)).1
    simpa using h
  · have h := (puzzleState_per_date_isolated "2024-01-02" "2024-01-01" (7 : Int)
      (fun d => if d = "2024-01-01" then some (3 : Int) else none) (by decide) (by decide)).2.1
    simpa using h
  · exact (puzzleState_per_date_isolated "2024-01-02" "x" (5 : Int)
      (fun d => if d = "2024-01-02" then some (5 : Int) else none) (by decide) (by decide)).2.2

/- ------------------------------------------------------------------ -/
/- Saved progress and the load-time restore (`App.jsx` lines 156-193). -/

/-- One persisted cell `{userInput, status}` as read back from storage;
either field may be missing (`none`). -/
structure SavedCell where
  userInput : Option String
  status : Option String
  deriving Repr, DecidableEq

/-- A persisted PuzzleProgress record as read back from storage.
`grid = none` models a missing or non-array `grid` (the
`Array.isArray(saved.grid)` check); `timer = none` models a value that is
not a finite number. -/
structure SavedProgress where
  grid : Option (List (Option SavedCell))
  timer : Option Int
  started : Bool
  paused : Bool
  completed : Bool
  deriving Repr, DecidableEq

/-- The state the load effect commits: grid plus timer and flags. -/
structure RestoredState where
  grid : Grid
  timer : Int
  started : Bool
  paused : Bool
  completed : Bool
  deriving Repr, DecidableEq

/-- The JavaScript `s.status || "neutral"` pattern: a missing or empty
status string falls back to "neutral". -/
def jsStatusOr (st : Option String) : String :=
  match st with
  | some v => if v = "" then "neutral" else v
  | none => "neutral"

/-- Overlay of one saved cell onto a freshly parsed cell: `userInput` is
the saved string if it is one, else ""; `status` is the saved status or
"neutral"; `answer` and `label` stay from the fresh parse. -/
def mergeSavedCell (cell : Cell) (s : Option SavedCell) : Cell :=
  let sc := s.getD ⟨none, none⟩
  { cell with
    userInput := sc.userInput.getD ""
    status := jsStatusOr sc.status }

/-- The saved grid entry at an index: `saved.grid[i] || {}` collapses a
null entry and an out-of-range read alike. -/
def savedAt (sg : List (Option SavedCell)) (i : Nat) : Option SavedCell :=
  match sg.get? i with
  | some s => s
  | none => none

/-- The merge loop of the restore: blocked cells stay `null`, playable
cells are overlaid with the saved entry at the same index. -/
def mergeGrid : Grid → List (Option SavedCell) → Grid
  | [], _ => []
  | c :: rest, [] => c.map (fun cell => mergeSavedCell cell none) :: mergeGrid rest []
  | c :: rest, s :: srest => c.map (fun cell => mergeSavedCell cell s) :: mergeGrid rest srest

/-- The restore step of the load effect: the saved record is applied only
when it exists, its grid is a list, and that list's length equals the
freshly parsed grid's length; otherwise the fresh state is used with
timer 0 and all flags false. -/
def restoreForDate (saved : Option SavedProgress) (initialGrid : Grid) : RestoredState :=
  match saved with
  | some sv =>
    match sv.grid with
    | some sg =>
      if sg.length = initialGrid.length then
        { grid := mergeGrid initialGrid sg
          timer := sv.timer.getD 0
          started := sv.started
          paused := sv.paused
          completed := sv.completed }
      else ⟨initialGrid, 0, false, false, false⟩
    | none => ⟨initialGrid, 0, false, false, false⟩
  | none => ⟨initialGrid, 0, false, false, false⟩

/-- Spec-side description of the overlaid `userInput` at an index. -/
def savedUserInputAt (sg : List (Option SavedCell)) (i : Nat) : String :=
  match savedAt sg i with
  | some sc => sc.userInput.getD ""
  | none => ""

/-- Spec-side description of the overlaid `status` at an index. -/
def savedStatusAt (sg : List (Option SavedCell)) (i : Nat) : String :=
  match savedAt sg i with
  | some sc => jsStatusOr sc.status
  | none => "neutral"

theorem mergeGrid_get? (init : Grid) (sg : List (Option SavedCell)) (i : Nat) :
    (mergeGrid init sg).get? i =
      (init.get? i).map (Option.map (fun cell => mergeSavedCell cell (savedAt sg i))) := by
  induction init generalizing sg i with
  | nil => simp [mergeGrid]
  | cons c t ih =>
    cases sg with
    | nil =>
      cases i with
      | zero => simp [mergeGrid, savedAt]
      | succ j => simpa [mergeGrid, savedAt] using ih [] j
    | cons s ss =>
      cases i with
      | zero => simp [mergeGrid, savedAt]
      | succ j =>
        have h := ih ss j
        simpa [mergeGrid, savedAt] using h

/-- C4.  The restore is all-or-nothing on the grid length: a missing
record, a non-array saved grid, or a saved grid whose length differs from
the freshly parsed grid's is ignored entirely (the fresh grid with timer
0 and all flags false); only on an exact length match are the saved
`userInput`/`status` overlaid per cell index, with `answer` and `label`
always taken from the fresh parse and blocked cells staying blocked. -/
theorem restore_length_guard_spec (saved : Option SavedProgress) (initial : Grid) :
    ((match saved with
      | some sv =>
        match sv.grid with
        | some sg => sg.length ≠ initial.length
        | none => True
      | none => True) →
      restoreForDate saved initial = ⟨initial, 0, false, false, false⟩) ∧
    (∀ sv sg, saved = some sv → sv.grid = some sg → sg.length = initial.length →
      (restoreForDate saved initial).timer = sv.timer.getD 0 ∧
      (restoreForDate saved initial).started = sv.started ∧
      (restoreForDate saved initial).paused = sv.paused ∧
      (restoreForDate saved initial).completed = sv.completed ∧
      (∀ i, initial.get? i = some none →
        (restoreForDate saved initial).grid.get? i = some none) ∧
      (∀ i cell, initial.get? i = some (some cell) →
        (restoreForDate saved initial).grid.get? i = some (some
          { answer := cell.answer
            label := cell.label
            userInput := savedUserInputAt sg i
            status := savedStatusAt sg i }))) := by
  constructor
  · intro h
    match saved with
    | none => rfl
    | some sv =>
      match hsv : sv.grid with
      | none => simp [restoreForDate, hsv]
      | some sg =>
        have h' : sg.length ≠ initial.length := by simpa [hsv] using h
        simp [restoreForDate, hsv, h']
  · rintro sv sg rfl hsg hlen
    simp only [restoreForDate, hsg, if_pos hlen]
    refine ⟨trivial, trivial, trivial, trivial, ?_, ?_⟩
    · intro i hi
      rw [mergeGrid_get?, hi]
      rfl
    · intro i cell hi
      rw [mergeGrid_get?, hi]
      cases hsa : savedAt sg i with
      | none => simp [mergeSavedCell, savedUserInputAt, savedStatusAt, hsa, jsStatusOr]
      | some sc => simp [mergeSavedCell, savedUserInputAt, savedStatusAt, hsa]

/- ------------------------------------------------------------------ -/
/- Navigation and input engine (`App.jsx`). -/

/-- The word-lookup maps `indexToAcross` / `indexToDown` built from the
clue list: each cell index maps to its word's full ordered cell list, a
cell with no word in a direction maps to `[]` (the `map.get(i) || []`
default). -/
structure WordMaps where
  across : Nat → List Nat
  down : Nat → List Nat

/-- The map selected for a direction string (`dir === "Across" ?
indexToAcross : indexToDown`). -/
def wordFor (maps : WordMaps) (dir : String) (i : Nat) : List Nat :=
  if dir = "Across" then maps.across i else maps.down i

/-- `getWordCells` (`App.jsx` lines 250-256): the word's cells and the
position of the index inside them, `([], -1)` when there is no active
index. -/
def getWordCells (maps : WordMaps) (i : Option Nat) (dir : String) : List Nat × Int :=
  match i with
  | none => ([], -1)
  | some idx =>
    let cells := wordFor maps dir idx
    (cells, jsIndexOf cells idx)

/-- The engine state the claims range over: committed grid, geometry,
cursor, timer flags, the current puzzle date and the stored score list. -/
structure AppState where
  grid : Grid
  cols : Nat
  activeIndex : Option Nat
  direction : String
  timer : Int
  started : Bool
  paused : Bool
  completed : Bool
  date : String
  scores : List ScoreEntry
  deriving Repr, DecidableEq

/-- The grid with every non-null cell's status force-set to "correct"
(the `corrected` map inside `finishPuzzle`). -/
def correctedGrid (g : Grid) : Grid :=
  g.map (Option.map (fun cell => { cell with status := "correct" }))

/-- `finishPuzzle` (`App.jsx` lines 290-316): marks the puzzle completed,
force-sets every non-null cell's status to "correct" and records the
score for the date with the frozen timer value. -/
def finishPuzzle (s : AppState) (finalGrid : Grid) : AppState :=
  { s with
    grid := correctedGrid finalGrid
    completed := true
    scores := (recordScore (some s.date) s.timer s.scores).2 }

/-- `typeLetter` (`App.jsx` lines 498-524): uppercases the letter, writes
it into the active cell (clearing a "wrong" status to "neutral"),
advances within the current word when a next position exists, then
auto-finishes if the grid became all-correct and was not completed. -/
def typeLetter (maps : WordMaps) (letter : String) (s : AppState) : AppState :=
  match s.activeIndex with
  | none => s
  | some a =>
    let L := up letter
    let next := jsSetCell s.grid a (fun cell =>
      { cell with
        userInput := L
        status := if cell.status = "wrong" then "neutral" else cell.status })
    let wc := getWordCells maps (some a) s.direction
    let s1 :=
      if wc.1.length ≠ 0 ∧ wc.2 + 1 < (wc.1.length : Int) then
        { s with activeIndex := some (nthD wc.1 (wc.2 + 1).toNat 0) }
      else s
    if isAllCorrect next = true ∧ s.completed = false then
      finishPuzzle { s1 with grid := next } next
    else { s1 with grid := next }

/-- `handleInput` (`App.jsx` lines 319-340): a direct field edit; the
write is ignored when the target cell is null or already "correct"
(locked), else the uppercased value is written and the same completion
check as `typeLetter` runs. -/
def handleInput (index : Nat) (value : String) (s : AppState) : AppState :=
  match gget s.grid index with
  | none => s
  | some cell =>
    if cell.status = "correct" then s
    else
      let next := jsSetCell s.grid index (fun c =>
        { c with
          userInput := up value
          status := if c.status = "wrong" then "neutral" else c.status })
      if isAllCorrect next = true ∧ s.completed = false then
        finishPuzzle { s with grid := next } next
      else { s with grid := next }

/-- `handleBackspace` (`App.jsx` lines 526-554): on an empty active cell,
move back one position within the word (clamped to 0; the active cell
itself when the word is empty) and clear that cell; on a filled active
cell, clear it in place without moving. -/
def handleBackspace (maps : WordMaps) (s : AppState) : AppState :=
  match s.activeIndex with
  | none => s
  | some a =>
    match gget s.grid a with
    | none => s
    | some here =>
      if here.userInput = "" then
        let wc := getWordCells maps (some a) s.direction
        let prevPos := max (wc.2 - 1) 0
        let prevIdx := if wc.1.length ≠ 0 then nthD wc.1 prevPos.toNat 0 else a
        { s with
          grid := jsSetCell s.grid prevIdx (fun c => { c with userInput := "" })
          activeIndex := some prevIdx }
      else
        { s with grid := jsSetCell s.grid a (fun c => { c with userInput := "" }) }

/-- `sameRow` (`App.jsx` line 468). -/
def sameRow (cols a b : Nat) : Bool := a / cols == b / cols

/-- Grid read at a possibly negative index, as the arrow-movement loop
performs it. -/
def cellAtInt (g : Grid) (i : Int) : Option Cell :=
  if 0 ≤ i then gget g i.toNat else none

/-- The `while` loop of `moveByArrow`: starting from `next`, keep
stepping over in-bounds null cells; stop with no result when out of
bounds or when a horizontal step leaves the active cell's row, stop with
the landing index on the first playable cell.  The fuel argument bounds
the iteration count; `moveByArrow` passes `grid.length + 1`, enough for
every in-bounds index to be visited at most once. -/
def arrowScan (g : Grid) (cols : Nat) (active : Nat) (step : Int) (horizontal : Bool) :
    Nat → Int → Option Nat
  | 0, _ => none
  | fuel + 1, next =>
    if 0 ≤ next ∧ next < (g.length : Int) then
      if horizontal && !(sameRow cols active next.toNat) then none
      else if (cellAtInt g next).isNone then
        arrowScan g cols active step horizontal fuel (next + step)
      else some next.toNat
    else none

/-- The step and axis an arrow key selects (`App.jsx` lines 476-482). -/
def stepFor (key : String) (cols : Nat) : Option (Int × Bool) :=
  if key = "ArrowRight" then some (1, true)
  else if key = "ArrowLeft" then some (-1, true)
  else if key = "ArrowDown" then some ((cols : Int), false)
  else if key = "ArrowUp" then some (-(cols : Int), false)
  else none

/-- `moveByArrow` (`App.jsx` lines 474-495): step the active index by the
key's delta, skipping null cells, refusing horizontal row changes, and on
landing set the direction from the movement axis. -/
def moveByArrow (key : String) (s : AppState) : AppState :=
  match s.activeIndex with
  | none => s
  | some a =>
    match stepFor key s.cols with
    | none => s
    | some (step, horizontal) =>
      match arrowScan s.grid s.cols a step horizontal (s.grid.length + 1) ((a : Int) + step) with
      | some b =>
        { s with
          activeIndex := some b
          direction := if horizontal then "Across" else "Down" }
      | none => s

/-- `firstEditableIndex` (`App.jsx` lines 566-578): first empty non-locked
cell of the word, else first non-locked cell, else none. -/
def firstEditableIndex (cells : List Nat) (g : Grid) : Option Nat :=
  if cells.length = 0 then none
  else
    match firstWhere (fun idx =>
        match gget g idx with
        | some c => decide (c.status ≠ "correct") && decide (c.userInput = "")
        | none => false) cells with
    | some t => some t
    | none =>
      firstWhere (fun idx =>
        match gget g idx with
        | some c => decide (c.status ≠ "correct")
        | none => false) cells

/-- `firstEditableAnywhere` (`App.jsx` lines 388-394). -/
def firstEditableAnywhere (g : Grid) : Option Nat :=
  jsFindIdx (fun c =>
    match c with
    | some cell => decide (cell.status ≠ "correct")
    | none => false) g

/-- Per-cell status assignment of `checkAnswers` (`App.jsx` lines 408-414). -/
def checkCell (cell : Cell) : Cell :=
  let expected := up (cell.answer.getD "")
  let actual := up cell.userInput
  if actual = "" then { cell with status := "neutral" }
  else { cell with status := if actual = expected then "correct" else "wrong" }

/-- `checkAnswers` (`App.jsx` lines 405-439): grade every cell, finish the
puzzle when all non-null cells graded "correct", else commit the graded
grid and move the cursor off a just-locked active cell. -/
def checkAnswersState (maps : WordMaps) (s : AppState) : AppState :=
  if s.grid.length = 0 then s
  else
    let nextGrid := s.grid.map (Option.map checkCell)
    if nextGrid.all (fun c =>
        match c with
        | none => true
        | some cell => cell.status == "correct") then
      finishPuzzle { s with grid := nextGrid } nextGrid
    else
      let s1 := { s with grid := nextGrid }
      match s.activeIndex with
      | some a =>
        match gget nextGrid a with
        | some cell =>
          if cell.status = "correct" then
            let wc := getWordCells maps (some a) s.direction
            let target :=
              match firstEditableIndex wc.1 nextGrid with
              | some t => some t
              | none => firstEditableAnywhere nextGrid
            match target with
            | some t => { s1 with activeIndex := some t }
            | none => { s1 with activeIndex := none }
          else s1
        | none => s1
      | none => s1

/- ------------------------------------------------------------------ -/
/- Point-update lemmas. -/

theorem jsSetCell_get?_same (g : Grid) (i : Nat) (f : Cell → Cell) :
    (jsSetCell g i f).get? i = (g.get? i).map (Option.map f) := by
  induction g generalizing i with
  | nil => simp [jsSetCell]
  | cons c t ih =>
    cases i with
    | zero => simp [jsSetCell]
    | succ j => simpa [jsSetCell] using ih j

theorem jsSetCell_get?_ne (g : Grid) (i j : Nat) (f : Cell → Cell) (h : j ≠ i) :
    (jsSetCell g i f).get? j = g.get? j := by
  induction g generalizing i j with
  | nil => simp [jsSetCell]
  | cons c t ih =>
    cases i with
    | zero =>
      cases j with
      | zero => exact absurd rfl h
      | succ j' => simp [jsSetCell]
    | succ i' =>
      cases j with
      | zero => simp [jsSetCell]
      | succ j' => simpa [jsSetCell] using ih i' j' (by omega)

theorem gget_congr {g1 g2 : Grid} {j : Nat} (h : g1.get? j = g2.get? j) :
    gget g1 j = gget g2 j := by
  unfold gget
  rw [h]

theorem gget_jsSetCell_same (g : Grid) (i : Nat) (f : Cell → Cell) :
    gget (jsSetCell g i f) i = (gget g i).map f := by
  simp only [gget, jsSetCell_get?_same]
  cases g.get? i with
  | none => rfl
  | some c => cases c <;> rfl

theorem jsFindIdx_ne_nil {p : α → Bool} {l : List α} {i : Nat}
    (h : jsFindIdx p l = some i) : l ≠ [] := by
  intro hnil
  subst hnil
  simp [jsFindIdx] at h

theorem maxSubOne_toNat (p : Nat) : (max ((p : Int) - 1) 0).toNat = p - 1 := by
  omega

/-- C2.  `handleBackspace` with an active cell `a` holding `here`:
if `here.userInput` is empty and `a` sits at position `p` of its word,
the cursor moves to the word's cell at position `p - 1` (clamped to 0)
and that cell's `userInput` is cleared, whatever it held, every other
cell untouched; if the word has no cells, the active cell is cleared in
place and the cursor does not move; if `here.userInput` is non-empty,
the active cell is cleared in place and the cursor does not move. -/
theorem handleBackspace_spec (maps : WordMaps) (s : AppState) (a : Nat) (here : Cell)
    (ha : s.activeIndex = some a) (hcell : gget s.grid a = some here) :
    (∀ w p, here.userInput = "" → wordFor maps s.direction a = w →
      jsFindIdx (fun y => y == a) w = some p →
      (handleBackspace maps s).activeIndex = some (nthD w (p - 1) 0) ∧
      (∀ c, gget s.grid (nthD w (p - 1) 0) = some c →
        gget (handleBackspace maps s).grid (nthD w (p - 1) 0) =
          some { c with userInput := "" }) ∧
      (∀ j, j ≠ nthD w (p - 1) 0 →
        (handleBackspace maps s).grid.get? j = s.grid.get? j)) ∧
    (here.userInput = "" → wordFor maps s.direction a = [] →
      (handleBackspace maps s).activeIndex = some a ∧
      gget (handleBackspace maps s).grid a = some { here with userInput := "" } ∧
      (∀ j, j ≠ a → (handleBackspace maps s).grid.get? j = s.grid.get? j)) ∧
    (here.userInput ≠ "" →
      (handleBackspace maps s).activeIndex = s.activeIndex ∧
      gget (handleBackspace maps s).grid a = some { here with userInput := "" } ∧
      (∀ j, j ≠ a → (handleBackspace maps s).grid.get? j = s.grid.get? j)) := by
  refine ⟨?_, ?_, ?_⟩
  · intro w p hui hw hfind
    have hne : w ≠ [] := jsFindIdx_ne_nil hfind
    have hlen : w.length ≠ 0 := by
      intro h0
      exact hne (List.length_eq_zero.mp h0)
    have hidx : jsIndexOf w a = (p : Int) := by simp [jsIndexOf, hfind]
    have hstep : handleBackspace maps s =
        { s with
          grid := jsSetCell s.grid (nthD w (p - 1) 0) (fun c => { c with userInput := "" })
          activeIndex := some (nthD w (p - 1) 0) } := by
      simp [handleBackspace, ha, hcell, getWordCells, hui, hw, hidx, hlen, maxSubOne_toNat]
    rw [hstep]
    refine ⟨rfl, ?_, ?_⟩
    · intro c hc
      rw [gget_jsSetCell_same, hc]
      rfl
    · intro j hj
      exact jsSetCell_get?_ne _ _ _ _ hj
  · intro hui hw
    have hstep : handleBackspace maps s =
        { s with
          grid := jsSetCell s.grid a (fun c => { c with userInput := "" })
          activeIndex := some a } := by
      simp [handleBackspace, ha, hcell, getWordCells, hui, hw, jsIndexOf, jsFindIdx]
    rw [hstep]
    refine ⟨rfl, ?_, ?_⟩
    · rw [gget_jsSetCell_same, hcell]
      rfl
    · intro j hj
      exact jsSetCell_get?_ne _ _ _ _ hj
  · intro hui
    have hstep : handleBackspace maps s =
        { s with grid := jsSetCell s.grid a (fun c => { c with userInput := "" }) } := by
      simp [handleBackspace, ha, hcell, hui]
    rw [hstep, ha]
    refine ⟨rfl, ?_, ?_⟩
    · rw [gget_jsSetCell_same, hcell]
      rfl
    · intro j hj
      exact jsSetCell_get?_ne _ _ _ _ hj

/-- Word maps for the backspace witness: one Across word `[0..4]`. -/
def bkMaps : WordMaps :=
  ⟨fun i => if i < 5 then [0, 1, 2, 3, 4] else [], fun _ => []⟩

/-- State for the backspace witness: cursor on empty cell 2, cell 1
already holding the letter X. -/
def bkState : AppState :=
  { grid := [some ⟨some "T", none, "T", "neutral"⟩,
             some ⟨some "A", none, "X", "neutral"⟩,
             some ⟨some "B", none, "", "neutral"⟩,
             some ⟨some "H", none, "", "neutral"⟩,
             some ⟨some "O", none, "", "neutral"⟩]
    cols := 5
    activeIndex := some 2
    direction := "Across"
    timer := 0
    started := true
    paused := false
    completed := false
    date := "2024-01-01"
    scores := [] }

/-- Witness for C2: backspace on empty position 2 of a 5-cell word moves
to position 1 and clears its letter X. -/
theorem handleBackspace_spec_witness :
    (handleBackspace bkMaps bkState).activeIndex = some 1 ∧
    gget (handleBackspace bkMaps bkState).grid 1 = some ⟨some "A", none, "", "neutral"⟩ := by
  have h := (handleBackspace_spec bkMaps bkState 2 ⟨some "B", none, "", "neutral"⟩
      rfl rfl).1 [0, 1, 2, 3, 4] 2 rfl (by decide) (by decide)
  exact ⟨h.1, h.2.1 ⟨some "A", none, "X", "neutral"⟩ rfl⟩

/-- Word maps for the locked-cell example: no words at all. -/
def lockMaps : WordMaps := ⟨fun _ => [], fun _ => []⟩

/-- State with a single cell already checked "correct" and active. -/
def lockState : AppState :=
  { grid := [some ⟨some "A", none, "A", "correct"⟩]
    cols := 1
    activeIndex := some 0
    direction := "Across"
    timer := 3
    started := true
    paused := false
    completed := false
    date := "2024-01-01"
    scores := [⟨"2024-01-01", some 3⟩] }

/-- C6 counterexample: the active cell has status "correct" and
`userInput` "A", yet `typeLetter` writes "B" into it — normal typing is
not blocked on a locked cell. -/
theorem typeLetter_overwrites_locked_cex :
    (gget lockState.grid 0).map Cell.status = some "correct" ∧
    (gget lockState.grid 0).map Cell.userInput = some "A" ∧
    (gget (typeLetter lockMaps "b" lockState).grid 0).map Cell.userInput = some "B" := by
  refine ⟨rfl, rfl, ?_⟩
  decide

/-- C6 amended.  The "locked once correct" rule is enforced by
`handleInput` (the direct-edit path), which ignores a write to a cell
whose status is "correct" entirely; `typeLetter` performs no such check
(see the counterexample). -/
theorem handleInput_locked (s : AppState) (i : Nat) (v : String) (cell : Cell)
    (hc : gget s.grid i = some cell) (hlock : cell.status = "correct") :
    handleInput i v s = s := by
  simp [handleInput, hc, hlock]

/-- Witness for the amended C6 at the concrete locked state. -/
theorem handleInput_locked_witness : handleInput 0 "b" lockState = lockState :=
  handleInput_locked lockState 0 "b" ⟨some "A", none, "A", "correct"⟩ rfl rfl

/- ------------------------------------------------------------------ -/
/- Arrow movement (C7). -/

theorem arrowScan_sound (g : Grid) (cols : Nat) (a : Nat) (step : Int) (horiz : Bool) :
    ∀ fuel (next : Int) (b : Nat), arrowScan g cols a step horiz fuel next = some b →
      cellAtInt g (b : Int) ≠ none ∧
      (horiz = true → sameRow cols a b = true) ∧
      ∃ k : Nat, (b : Int) = next + (k : Int) * step ∧
        ∀ j : Nat, j < k → cellAtInt g (next + (j : Int) * step) = none := by
  intro fuel
  induction fuel with
  | zero => intro next b h; simp [arrowScan] at h
  | succ fuel ih =>
    intro next b h
    by_cases hb : 0 ≤ next ∧ next < (g.length : Int)
    · rw [arrowScan, if_pos hb] at h
      by_cases hwrap : (horiz && !(sameRow cols a next.toNat)) = true
      · rw [if_pos hwrap] at h
        exact absurd h (by simp)
      · rw [if_neg hwrap] at h
        by_cases hnull : (cellAtInt g next).isNone = true
        · rw [if_pos hnull] at h
          obtain ⟨h1, h2, k, hk, hnulls⟩ := ih (next + step) b h
          refine ⟨h1, h2, k + 1, ?_, ?_⟩
          · rw [hk]; push_cast; ring
          · intro j hj
            cases j with
            | zero =>
              simpa using Option.eq_none_of_isNone hnull
            | succ j' =>
              have harg : next + ((j' + 1 : Nat) : Int) * step =
                  (next + step) + (j' : Int) * step := by push_cast; ring
              rw [harg]
              exact hnulls j' (by omega)
        · rw [if_neg hnull] at h
          have hbn : b = next.toNat := by
            simpa using h.symm
          have hcast : (b : Int) = next := by
            rw [hbn]
            exact Int.toNat_of_nonneg hb.1
          refine ⟨?_, ?_, 0, by simp [hcast], by intro j hj; omega⟩
          · rw [hcast]
            intro hcontra
            rw [hcontra] at hnull
            exact hnull rfl
          · intro hh
            rw [hh] at hwrap
            simp at hwrap
            rw [hbn]
            exact hwrap
    · rw [arrowScan, if_neg hb] at h
      exact absurd h (by simp)

/-- C7.  `moveByArrow` steps the cursor by +1 / -1 / +cols / -cols,
skipping null cells by repeated stepping: whenever the state changes, the
landing index is `a + k * step` for some `k ≥ 1` with every strictly
intermediate stop a null cell and the destination playable, and the
direction becomes "Across" on a horizontal key and "Down" on a vertical
key (the function never consults the word maps, so this holds even when
the destination has no word in that direction).  For ArrowLeft and
ArrowRight the active cell's row never changes: every horizontal move
lands in the row of the starting cell, and a step that would leave the
row is a complete no-op. -/
theorem moveByArrow_spec (s : AppState) (key : String) :
    ((key = "ArrowLeft" ∨ key = "ArrowRight") →
      ∀ a, s.activeIndex = some a →
        ∃ b, (moveByArrow key s).activeIndex = some b ∧ sameRow s.cols a b = true) ∧
    (moveByArrow key s ≠ s →
      ∃ a b step horizontal k,
        stepFor key s.cols = some (step, horizontal) ∧
        s.activeIndex = some a ∧
        (moveByArrow key s).activeIndex = some b ∧
        (moveByArrow key s).direction = (if horizontal then "Across" else "Down") ∧
        (moveByArrow key s).grid = s.grid ∧
        1 ≤ k ∧ (b : Int) = (a : Int) + (k : Int) * step ∧
        (∀ j : Nat, 1 ≤ j → j < k →
          cellAtInt s.grid ((a : Int) + (j : Int) * step) = none) ∧
        cellAtInt s.grid (b : Int) ≠ none ∧
        (horizontal = true → sameRow s.cols a b = true)) := by
  constructor
  · intro hkey a ha
    have hsf : stepFor key s.cols =
        some (if key = "ArrowRight" then 1 else -1, true) := by
      rcases hkey with rfl | rfl <;> rfl
    cases harr : arrowScan s.grid s.cols a (if key = "ArrowRight" then 1 else -1) true
        (s.grid.length + 1) ((a : Int) + (if key = "ArrowRight" then 1 else -1)) with
    | none =>
      have hmv : moveByArrow key s = s := by
        simp [moveByArrow, ha, hsf, harr]
      exact ⟨a, by rw [hmv, ha], by simp [sameRow]⟩
    | some b =>
      have hmv : moveByArrow key s = { s with activeIndex := some b, direction := "Across" } := by
        simp [moveByArrow, ha, hsf, harr]
      have hsou := arrowScan_sound s.grid s.cols a _ true _ _ b harr
      exact ⟨b, by rw [hmv], hsou.2.1 rfl⟩
  · intro hne
    cases hact : s.activeIndex with
    | none => exact absurd (by simp [moveByArrow, hact]) hne
    | some a =>
      cases hsf : stepFor key s.cols with
      | none => exact absurd (by simp [moveByArrow, hact, hsf]) hne
      | some sh =>
        obtain ⟨step, horiz⟩ := sh
        cases harr : arrowScan s.grid s.cols a step horiz (s.grid.length + 1)
            ((a : Int) + step) with
        | none => exact absurd (by simp [moveByArrow, hact, hsf, harr]) hne
        | some b =>
          have hmv : moveByArrow key s =
              { s with activeIndex := some b
                       direction := if horiz then "Across" else "Down" } := by
            simp [moveByArrow, hact, hsf, harr]
          obtain ⟨hplay, hrow, k, hk, hnulls⟩ :=
            arrowScan_sound s.grid s.cols a step horiz _ _ b harr
          refine ⟨a, b, step, horiz, k + 1, rfl, rfl, by rw [hmv], by rw [hmv],
            by rw [hmv], by omega, ?_, ?_, hplay, hrow⟩
          · rw [hk]; ring
          · intro j h1 h2
            obtain ⟨j', rfl⟩ : ∃ j', j = j' + 1 := ⟨j - 1, by omega⟩
            have harg : (a : Int) + ((j' + 1 : Nat) : Int) * step =
                ((a : Int) + step) + (j' : Int) * step := by push_cast; ring
            rw [harg]
            exact hnulls j' (by omega)

/-- A 2 x 3 demo board for the arrow-movement examples: row 0 is
playable, blocked, playable; row 1 is playable, playable, blocked. -/
def navState : AppState :=
  { grid := [some ⟨some "A", none, "", "neutral"⟩, none,
             some ⟨some "B", none, "", "neutral"⟩,
             some ⟨some "C", none, "", "neutral"⟩,
             some ⟨some "D", none, "", "neutral"⟩, none]
    cols := 3
    activeIndex := some 0
    direction := "Down"
    timer := 0
    started := true
    paused := false
    completed := false
    date := "2024-01-01"
    scores := [] }

example : (moveByArrow "ArrowRight" navState).activeIndex = some 2 := by decide

example : (moveByArrow "ArrowRight" navState).direction = "Across" := by decide

example : moveByArrow "ArrowRight" { navState with activeIndex := some 2 } =
    { navState with activeIndex := some 2 } := by decide

example : (moveByArrow "ArrowDown" navState).activeIndex = some 3 := by decide

/- ------------------------------------------------------------------ -/
/- Idempotence of checkAnswers on a solved grid (C5). -/

theorem list_map_id_of {α : Type} {l : List α} {f : α → α}
    (h : ∀ x ∈ l, f x = x) : l.map f = l := by
  induction l with
  | nil => rfl
  | cons a t ih =>
    rw [List.map_cons, h a (List.mem_cons_self a t),
      ih (fun x hx => h x (List.mem_cons_of_mem a hx))]

theorem gget_map (g : Grid) (f : Cell → Cell) (j : Nat) :
    gget (g.map (Option.map f)) j = (gget g j).map f := by
  simp only [gget, List.get?_eq_getElem?, List.getElem?_map]
  cases g[j]? with
  | none => rfl
  | some c => cases c <;> rfl

theorem gget_correctedGrid (g : Grid) (j : Nat) :
    gget (correctedGrid g) j = (gget g j).map (fun cell => { cell with status := "correct" }) :=
  gget_map g _ j

theorem userInput_correctedGrid (g : Grid) (j : Nat) :
    (gget (correctedGrid g) j).map Cell.userInput = (gget g j).map Cell.userInput := by
  rw [gget_correctedGrid]
  cases gget g j <;> rfl

/-- C5.  On a grid that is already fully correct — every non-null cell's
`userInput` case-insensitively equals its non-empty `answer` (the data
model gives every playable cell a single-letter answer) and every
non-null cell's status is "correct" — and whose puzzle is completed with
a recorded best time no worse than the frozen timer, re-invoking
`checkAnswers` is the identity: no cell's status changes and the
re-entered finish path records no second score. -/
theorem checkAnswers_idempotent (maps : WordMaps) (s : AppState)
    (i : Nat) (e : ScoreEntry) (v : Int)
    (hall : ∀ c ∈ s.grid, match c with
            | none => True
            | some cell => up cell.userInput = up (cell.answer.getD "") ∧
                cell.status = "correct" ∧ cell.answer.getD "" ≠ "")
    (hcomp : s.completed = true)
    (hfind : jsFindIdx (fun x => x.date == s.date) s.scores = some i)
    (hget : s.scores.get? i = some e)
    (hsec : e.seconds = some v)
    (hle : v ≤ s.timer) :
    checkAnswersState maps s = s := by
  by_cases hg : s.grid.length = 0
  · simp [checkAnswersState, hg]
  · have hcheck : ∀ c ∈ s.grid, Option.map checkCell c = c := by
      intro c hc
      have hc' := hall c hc
      cases c with
      | none => rfl
      | some cell =>
        obtain ⟨hmatch, hstat, hans⟩ := hc'
        have hne : up cell.userInput ≠ "" := by
          rw [hmatch]
          intro hcontra
          exact hans ((up_eq_empty_iff _).mp hcontra)
        simp only [Option.map_some']
        congr 1
        obtain ⟨ans, lab, ui, st⟩ := cell
        simp only at hmatch hstat hne
        simp only [checkCell, if_neg hne, if_pos hmatch]
        rw [hstat]
    have hnext : s.grid.map (Option.map checkCell) = s.grid := list_map_id_of hcheck
    have hallc : s.grid.all (fun c =>
        match c with
        | none => true
        | some cell => cell.status == "correct") = true := by
      rw [List.all_eq_true]
      intro c hc
      have hc' := hall c hc
      cases c with
      | none => rfl
      | some cell => simpa using hc'.2.1
    have hrs : (recordScore (some s.date) s.timer s.scores).2 = s.scores := by
      by_cases hd0 : s.date = ""
      · simp [recordScore, hd0]
      · by_cases hdv : matchesDatePattern s.date
        · have hget' : s.scores[i]? = some e := by
            rw [← List.get?_eq_getElem?]
            exact hget
          simp [recordScore, hd0, hdv, hfind, hget', hsec, Int.not_lt.mpr hle]
        · simp [recordScore, hd0, hdv]
    have hcorr : correctedGrid s.grid = s.grid := by
      apply list_map_id_of
      intro c hc
      have hc' := hall c hc
      cases c with
      | none => rfl
      | some cell =>
        obtain ⟨-, hstat, -⟩ := hc'
        simp only [Option.map_some']
        congr 1
        obtain ⟨ans, lab, ui, st⟩ := cell
        simp only at hstat
        rw [show "correct" = st from hstat.symm]
    simp only [checkAnswersState, if_neg hg, hnext, hallc, if_pos, finishPuzzle, hcorr, hrs]
    cases s with
    | mk g c ai dir t st pa comp d sc =>
      simp only at hcomp
      rw [hcomp]

/-- A solved, completed one-word puzzle with its best time recorded. -/
def doneState : AppState :=
  { grid := [some ⟨some "A", none, "a", "correct"⟩, none]
    cols := 2
    activeIndex := some 0
    direction := "Across"
    timer := 30
    started := true
    paused := false
    completed := true
    date := "2024-01-01"
    scores := [⟨"2024-01-01", some 30⟩] }

/-- Witness for C5 at the concrete solved state. -/
theorem checkAnswers_idempotent_witness :
    checkAnswersState lockMaps doneState = doneState := by
  refine checkAnswers_idempotent lockMaps doneState 0 ⟨"2024-01-01", some 30⟩ 30
    ?_ rfl (by decide) rfl rfl (by decide)
  intro c hc
  have hg : doneState.grid = [some ⟨some "A", none, "a", "correct"⟩, none] := rfl
  rw [hg] at hc
  rcases List.mem_cons.mp hc with rfl | hc2
  · exact ⟨by decide, rfl, by decide⟩
  · rcases List.mem_cons.mp hc2 with rfl | hc3
    · trivial
    · cases hc3

/- ------------------------------------------------------------------ -/
/- Type-then-backspace round trip (C8). -/

/-- Word maps for the round-trip states: one Across word `[0, 1]`. -/
def rtMaps : WordMaps := ⟨fun i => if i ≤ 1 then [0, 1] else [], fun _ => []⟩

/-- Round-trip counterexample state: both cells already hold letters. -/
def rtState : AppState :=
  { grid := [some ⟨some "A", none, "X", "neutral"⟩, some ⟨some "B", none, "Y", "neutral"⟩]
    cols := 2
    activeIndex := some 0
    direction := "Across"
    timer := 5
    started := true
    paused := false
    completed := false
    date := "2024-01-01"
    scores := [] }

/-- C8 counterexample: typing Q into cell 0 (which held X) advances to
cell 1 (which held Y); backspace then clears cell 1 in place, so cell 0
keeps Q — its prior `userInput` X is not restored, and cell 1's letter is
destroyed, although the typed letter was the only intervening change. -/
theorem typeLetter_backspace_cex :
    (gget rtState.grid 0).map Cell.userInput = some "X" ∧
    (gget (handleBackspace rtMaps (typeLetter rtMaps "q" rtState)).grid 0).map
      Cell.userInput = some "Q" ∧
    (gget rtState.grid 1).map Cell.userInput = some "Y" ∧
    (gget (handleBackspace rtMaps (typeLetter rtMaps "q" rtState)).grid 1).map
      Cell.userInput = some "" := by
  refine ⟨rfl, ?_, rfl, ?_⟩ <;> decide

/-- Shape of `typeLetter` relative to the point-updated grid: direction
is preserved, every cell's `userInput` equals that of the point-updated
grid (the auto-finish only rewrites statuses), and the cursor advances to
word position + 1 exactly when the word has such a position. -/
theorem typeLetter_shape (maps : WordMaps) (letter : String) (s : AppState) (a : Nat)
    (ha : s.activeIndex = some a) :
    (typeLetter maps letter s).direction = s.direction ∧
    (∀ j, (gget (typeLetter maps letter s).grid j).map Cell.userInput =
      (gget (jsSetCell s.grid a
        (fun c =>
          { c with
            userInput := up letter
            status := if c.status = "wrong" then "neutral" else c.status })) j).map
        Cell.userInput) ∧
    (¬((wordFor maps s.direction a).length ≠ 0 ∧
        jsIndexOf (wordFor maps s.direction a) a + 1 <
          ((wordFor maps s.direction a).length : Int)) →
      (typeLetter maps letter s).activeIndex = some a) ∧
    (((wordFor maps s.direction a).length ≠ 0 ∧
        jsIndexOf (wordFor maps s.direction a) a + 1 <
          ((wordFor maps s.direction a).length : Int)) →
      (typeLetter maps letter s).activeIndex =
        some (nthD (wordFor maps s.direction a)
          (jsIndexOf (wordFor maps s.direction a) a + 1).toNat 0)) := by
  refine ⟨?_, ?_, ?_, ?_⟩
  · simp only [typeLetter, ha, getWordCells]
    split
    · simp only [finishPuzzle]
      split <;> rfl
    · split <;> rfl
  · intro j
    simp only [typeLetter, ha, getWordCells]
    split
    · simp only [finishPuzzle]
      exact userInput_correctedGrid _ j
    · rfl
  · intro hnadv
    simp only [typeLetter, ha, getWordCells]
    rw [if_neg hnadv]
    split
    · simp only [finishPuzzle]
      exact ha
    · exact ha
  · intro hadv
    simp only [typeLetter, ha, getWordCells]
    rw [if_pos hadv]
    split
    · simp only [finishPuzzle]
    · rfl

/-- C8 amended.  The round trip holds on an empty cell: if the active
cell's `userInput` was empty before typing, and the cell the cursor
auto-advances to (when the word has a next position) was also empty, then
`typeLetter` followed by `handleBackspace` restores the typed-into cell's
prior (empty) `userInput`, and no other cell's `userInput` changes.  The
hypotheses on `w` state that the word maps were built from a clue list:
the word's cells list holds `a` at position `p` and its successor `b`
(first occurrence each) and is the word of `b` too. -/
theorem typeLetter_backspace_roundTrip (maps : WordMaps) (s : AppState)
    (a : Nat) (cell : Cell) (letter : String) (w : List Nat)
    (ha : s.activeIndex = some a)
    (hcell : gget s.grid a = some cell)
    (hempty : cell.userInput = "")
    (hletter : letter ≠ "")
    (hw : wordFor maps s.direction a = w)
    (hcase : w = [] ∨ ∃ p, jsFindIdx (fun y => y == a) w = some p ∧
      (p + 1 < w.length → ∃ b cb, w.get? (p + 1) = some b ∧ b ≠ a ∧
        gget s.grid b = some cb ∧ cb.userInput = "" ∧
        jsFindIdx (fun y => y == b) w = some (p + 1) ∧
        wordFor maps s.direction b = w)) :
    (∃ c, gget (handleBackspace maps (typeLetter maps letter s)).grid a = some c ∧
      c.userInput = cell.userInput) ∧
    (∀ j, j ≠ a →
      (gget (handleBackspace maps (typeLetter maps letter s)).grid j).map Cell.userInput =
        (gget s.grid j).map Cell.userInput) := by
  obtain ⟨hTdir, hTui, hTactN, hTactA⟩ := typeLetter_shape maps letter s a ha
  rw [hw] at hTactN hTactA
  have hupL : up letter ≠ "" := fun h => hletter ((up_eq_empty_iff letter).mp h)
  have hTa : (gget (typeLetter maps letter s).grid a).map Cell.userInput =
      some (up letter) := by
    rw [hTui a, gget_jsSetCell_same, hcell]
    rfl
  suffices hBg : (handleBackspace maps (typeLetter maps letter s)).grid =
      jsSetCell (typeLetter maps letter s).grid a (fun c => { c with userInput := "" }) by
    constructor
    · obtain ⟨hA, hhA, -⟩ := Option.map_eq_some'.mp hTa
      refine ⟨{ hA with userInput := "" }, ?_, hempty.symm⟩
      rw [hBg, gget_jsSetCell_same, hhA]
      rfl
    · intro j hj
      have h1 : (handleBackspace maps (typeLetter maps letter s)).grid.get? j =
          (typeLetter maps letter s).grid.get? j := by
        rw [hBg]
        exact jsSetCell_get?_ne _ _ _ _ hj
      have h2 : gget (handleBackspace maps (typeLetter maps letter s)).grid j =
          gget (typeLetter maps letter s).grid j := gget_congr h1
      have h3 : (jsSetCell s.grid a
          (fun c =>
            { c with
              userInput := up letter
              status := if c.status = "wrong" then "neutral" else c.status })).get? j =
          s.grid.get? j := jsSetCell_get?_ne _ _ _ _ hj
      have h4 : gget (jsSetCell s.grid a
          (fun c =>
            { c with
              userInput := up letter
              status := if c.status = "wrong" then "neutral" else c.status })) j =
          gget s.grid j := gget_congr h3
      rw [h2, hTui j, h4]
  rcases hcase with hwnil | ⟨p, hfind, hnextc⟩
  · have hnadv : ¬(w.length ≠ 0 ∧ jsIndexOf w a + 1 < (w.length : Int)) := by
      rw [hwnil]
      simp
    have hact := hTactN hnadv
    obtain ⟨hA, hhA, hAui⟩ := Option.map_eq_some'.mp hTa
    have hAne : hA.userInput ≠ "" := by
      rw [hAui]
      exact hupL
    have hBeq : handleBackspace maps (typeLetter maps letter s) =
        { typeLetter maps letter s with
          grid := jsSetCell (typeLetter maps letter s).grid a
            (fun c => { c with userInput := "" }) } := by
      simp [handleBackspace, hact, hhA, hAne]
    rw [hBeq]
  · by_cases hpadv : p + 1 < w.length
    · obtain ⟨b, cb, hgetb, hbne, hcellb, hcbui, hfindb, hwb⟩ := hnextc hpadv
      have hlenw : w.length ≠ 0 := by
        intro h0
        exact jsFindIdx_ne_nil hfind (List.length_eq_zero.mp h0)
      have hidx : jsIndexOf w a = (p : Int) := by simp [jsIndexOf, hfind]
      have hadv : w.length ≠ 0 ∧ jsIndexOf w a + 1 < (w.length : Int) := by
        refine ⟨hlenw, ?_⟩
        rw [hidx]
        exact_mod_cast hpadv
      have hact := hTactA hadv
      have htoNat : (jsIndexOf w a + 1).toNat = p + 1 := by
        rw [hidx]
        omega
      rw [htoNat] at hact
      have htgt : nthD w (p + 1) 0 = b := by
        unfold nthD
        rw [hgetb]
      rw [htgt] at hact
      have h3 : (jsSetCell s.grid a
          (fun c =>
            { c with
              userInput := up letter
              status := if c.status = "wrong" then "neutral" else c.status })).get? b =
          s.grid.get? b := jsSetCell_get?_ne _ _ _ _ hbne
      have hTb : (gget (typeLetter maps letter s).grid b).map Cell.userInput = some "" := by
        rw [hTui b]
        have h4 : gget (jsSetCell s.grid a
            (fun c =>
              { c with
                userInput := up letter
                status := if c.status = "wrong" then "neutral" else c.status })) b =
            gget s.grid b := gget_congr h3
        rw [h4, hcellb]
        simp [hcbui]
      obtain ⟨hB, hhB, hBui⟩ := Option.map_eq_some'.mp hTb
      have hidxb : jsIndexOf w b = ((p + 1 : Nat) : Int) := by simp [jsIndexOf, hfindb]
      obtain ⟨x, hx, hpx⟩ := jsFindIdx_some_get hfind
      have hxa : x = a := by simpa using hpx
      have hprev : nthD w p 0 = a := by
        unfold nthD
        rw [hx]
        exact hxa
      have hBeq : handleBackspace maps (typeLetter maps letter s) =
          { typeLetter maps letter s with
            grid := jsSetCell (typeLetter maps letter s).grid a
              (fun c => { c with userInput := "" })
            activeIndex := some a } := by
        simp only [handleBackspace, hact, hhB]
        rw [if_pos hBui]
        simp [getWordCells, hTdir, hwb, hidxb, maxSubOne_toNat, hprev, hlenw]
      rw [hBeq]
    · have hidx : jsIndexOf w a = (p : Int) := by simp [jsIndexOf, hfind]
      have hnadv : ¬(w.length ≠ 0 ∧ jsIndexOf w a + 1 < (w.length : Int)) := by
        rintro ⟨-, hlt⟩
        rw [hidx] at hlt
        exact hpadv (by exact_mod_cast hlt)
      have hact := hTactN hnadv
      obtain ⟨hA, hhA, hAui⟩ := Option.map_eq_some'.mp hTa
      have hAne : hA.userInput ≠ "" := by
        rw [hAui]
        exact hupL
      have hBeq : handleBackspace maps (typeLetter maps letter s) =
          { typeLetter maps letter s with
            grid := jsSetCell (typeLetter maps letter s).grid a
              (fun c => { c with userInput := "" }) } := by
        simp [handleBackspace, hact, hhA, hAne]
      rw [hBeq]

/-- Round-trip witness state: the word `[0, 1]` with both cells empty. -/
def rtwState : AppState :=
  { grid := [some ⟨some "A", none, "", "neutral"⟩, some ⟨some "B", none, "", "neutral"⟩]
    cols := 2
    activeIndex := some 0
    direction := "Across"
    timer := 5
    started := true
    paused := false
    completed := false
    date := "2024-01-01"
    scores := [] }

/-- Witness for the amended C8: typing Q into empty cell 0 and pressing
backspace leaves cell 0 empty again. -/
theorem typeLetter_backspace_roundTrip_witness :
    ∃ c, gget (handleBackspace rtMaps (typeLetter rtMaps "q" rtwState)).grid 0 = some c ∧
      c.userInput = "" := by
  have h := (typeLetter_backspace_roundTrip rtMaps rtwState 0 ⟨some "A", none, "", "neutral"⟩
      "q" [0, 1] rfl rfl rfl (by decide) (by decide)
      (Or.inr ⟨0, by decide, fun _ =>
        ⟨1, ⟨some "B", none, "", "neutral"⟩, by decide, by decide, by decide, by decide,
          by decide, by decide⟩⟩)).1
  exact h
